import Mathlib

/-!
Shallow embedding of the NXDOMAIND background resolution engine
(src/unnamed/part_000) in Lean 4.

The embedding follows the TypeScript source function by function.
Timestamps (`Date.now()`) are modelled as a `Nat` parameter `t` passed to
each operation; JavaScript objects and `Map`s keyed by strings are
modelled as insertion-ordered association lists; `Set`s of strings as
lists without duplicates; `Array.prototype.sort` with comparator
`(a, b) => b.ts - a.ts` (stable per the ECMAScript spec) is modelled by
Mathlib stable `insertionSort` on the relation `tsGE`.
Network input is supplied as explicit data: the RDAP response as an
`RdapResp` value and the DoH answer as an `Option DohJson`
(`none` = both providers failed / threw). The network requests a call
issues are returned as an explicit `NetEvent` list.
-/

namespace NXD

/-- Source: `type Status = 'pending' | 'registered' | 'unregistered' | 'unknown' | 'error'`
(part_000 lines 4-7). -/
inductive Status where
  | pending
  | registered
  | unregistered
  | unknown
  | error
deriving DecidableEq, Repr

/-- Source: `type Method = 'rdap' | 'dns' | null` (part_000 line 4); the
`null` case is modelled as `Option MProto = none`. -/
inductive MProto where
  | rdap
  | dns
deriving DecidableEq, Repr

/-- Source: `interface PageRef \x7b url: string; ts: number \x7d` (part_000 lines 9-12). -/
structure PageRef where
  url : String
  ts : Nat
deriving DecidableEq, Repr

/-- Source: `interface DomainInfo` (part_000 lines 14-23). The optional
`pages`/`requests` arrays are modelled as lists (the source reads them
only through `?? []`); the optional `softUntil` as an `Option Nat`. -/
structure DomainInfo where
  status : Status
  method : Option MProto
  http : Nat
  url : String
  ts : Nat
  pages : List PageRef
  requests : List PageRef
  softUntil : Option Nat
deriving DecidableEq, Repr

/-- Source: element type of `availableList` (part_000 lines 61-67). -/
structure Finding where
  domain : String
  method : Option MProto
  ts : Nat
  pages : List PageRef
  requests : List PageRef
deriving DecidableEq, Repr

/-- Source: return value of `rdapFetch` (part_000 line 807 and 828):
`\x7b ok, status, finalUrl \x7d`. -/
structure RdapResp where
  ok : Bool
  status : Nat
  finalUrl : String
deriving DecidableEq, Repr

/-- The shape of a DoH JSON answer as read by `dnsCheckOne`
(part_000 lines 882-885): `statusNum` is `j.Status` when it is a number,
`answerNonempty` is `Array.isArray(j.Answer) && j.Answer.length > 0`,
`authorityHasSOA` is `Array.isArray(j.Authority) && j.Authority.some(rr => rr.type === 6)`. -/
structure DohJson where
  statusNum : Option Int
  answerNonempty : Bool
  authorityHasSOA : Bool
deriving DecidableEq, Repr

/-- Source: return value of `dnsCheckOne` (part_000 lines 890, 897, 903-907, 912). -/
structure DnsRes where
  status : Status
  method : Option MProto
  softUntil : Option Nat
deriving DecidableEq, Repr

/-- Source: the `result` object returned by `dnsFallback` (part_000 lines 929-947). -/
structure FbResult where
  status : Status
  method : Option MProto
  http : Nat
  url : String
  softUntil : Option Nat
deriving DecidableEq, Repr

/-- Result of the external `tldts.parse` call (spec section 1: external
public-suffix-list library, assumed as a pure function
`registrableDomain(host) -> \x7bdomain, isIP, isICANN\x7d | null`).
The handler code reads exactly the fields `domain`, `isIp`, `isIcann`. -/
structure ParseInfo where
  domain : Option String
  isIp : Bool
  isIcann : Bool
deriving DecidableEq, Repr

/-- A network request issued by the resolution protocol: an RDAP registry
GET or a DoH NS query for the given domain. -/
inductive NetEvent where
  | rdapReq (d : String)
  | dohReq (d : String)
deriving DecidableEq, Repr

/-- Source constant (part_000 line 26). -/
def DNS_REGISTERED_SOFT_TTL_MS : Nat := 15 * 60000

/-- Source constant (part_000 line 30). -/
def MAX_PAGES_PER_DOMAIN : Nat := 200

/-- Source constant (part_000 line 31). -/
def MAX_REQS_PER_DOMAIN : Nat := 200

/-- Source constant (part_000 line 38). -/
def ENQUEUE_TTL_MS : Nat := 10000

/-- Lookup in a string-keyed association list, modelling
`obj[k]` / `map.get(k)` (first binding wins; the mutation helpers below
keep keys unique as JavaScript objects and Maps do). -/
def aGet {α : Type} : List (String × α) → String → Option α
  | [], _ => none
  | (k1, v) :: rest, k => if k1 = k then some v else aGet rest k

/-- Update-or-append, modelling `obj[k] = v` / `map.set(k, v)`:
an existing binding is overwritten in place, a new key is appended. -/
def aSet {α : Type} : List (String × α) → String → α → List (String × α)
  | [], k, v => [(k, v)]
  | (k1, v1) :: rest, k, v =>
      if k1 = k then (k, v) :: rest else (k1, v1) :: aSet rest k v

/-- Deletion, modelling `delete obj[k]` / `map.delete(k)`. -/
def aDel {α : Type} : List (String × α) → String → List (String × α)
  | [], _ => []
  | (k1, v1) :: rest, k =>
      if k1 = k then aDel rest k else (k1, v1) :: aDel rest k

/-- Set insertion, modelling `set.add(x)` on a JavaScript `Set`. -/
def sAdd (s : List String) (x : String) : List String :=
  if s.contains x then s else s ++ [x]

/-- The descending-timestamp order used by every evidence sort in the
source: comparator `(a, b) => b.ts - a.ts`. -/
def tsGE (a b : PageRef) : Prop := b.ts ≤ a.ts

instance : DecidableRel tsGE := fun a b => inferInstanceAs (Decidable (b.ts ≤ a.ts))

instance : IsTotal PageRef tsGE := ⟨fun a b => Nat.le_total b.ts a.ts⟩

instance : IsTrans PageRef tsGE := ⟨fun _ _ _ h1 h2 => Nat.le_trans h2 h1⟩

/-- Stable sort by descending `ts`, modelling
`arr.sort((a, b) => b.ts - a.ts)` (stable per ECMAScript). -/
def sortTsDesc (l : List PageRef) : List PageRef :=
  List.insertionSort tsGE l

/-- `Map.set(u, t)` on a url-keyed `Map<string, number>` represented as an
entry list: overwrite in place if the key is present, append otherwise. -/
def mapSetTs (m : List PageRef) (u : String) (t : Nat) : List PageRef :=
  if m.any (fun p => p.url = u) then
    m.map (fun p => if p.url = u then ⟨u, t⟩ else p)
  else m ++ [⟨u, t⟩]

/-- `map.get(u) || 0` (part_000 lines 1035, 1038, 1078, 1085). -/
def mapGetD (m : List PageRef) (u : String) : Nat :=
  ((m.find? (fun p => p.url = u)).map PageRef.ts).getD 0

/-- `map.set(u, Math.max(map.get(u) || 0, t))`: the keep-max-timestamp
upsert used by `mergeContextsInto` and the findings merge. -/
def mapSetMaxTs (m : List PageRef) (u : String) (t : Nat) : List PageRef :=
  mapSetTs m u (Nat.max (mapGetD m u) t)

/-- `new Map(list.map(p => [p.url, p.ts]))` (part_000 lines 1077, 1084):
later duplicate urls overwrite earlier values, key order is first
insertion. -/
def mapOfPairs (l : List PageRef) : List PageRef :=
  l.foldl (fun m p => mapSetTs m p.url p.ts) []

/-- `list.forEach(p => map.set(p.url, Math.max(map.get(p.url) || 0, p.ts)))`
(part_000 lines 1034-1039, 1078, 1085). -/
def foldMaxTs (m : List PageRef) (l : List PageRef) : List PageRef :=
  l.foldl (fun acc p => mapSetMaxTs acc p.url p.ts) m

/-- The findings-list evidence merge performed by `propagateStatus` for an
existing entry (part_000 lines 1077-1089): build a map from the existing
list, fold the incoming list keeping the max timestamp per url, then sort
by descending timestamp and re-cap. -/
def mergeEvidence (existing incoming : List PageRef) (cap : Nat) : List PageRef :=
  (sortTsDesc (foldMaxTs (mapOfPairs existing) incoming)).take cap

/-- `item.pages[idx].ts = now()` for the first entry with the given url
(part_000 lines 971-972, 1006-1007). -/
def touchFirst (u : String) (t : Nat) : List PageRef → List PageRef
  | [] => []
  | p :: ps => if p.url = u then { p with ts := t } :: ps else p :: touchFirst u t ps

/-- The shared body of `addPageContext` and `addRequestContext`
(part_000 lines 970-979 and 1005-1013): refresh the timestamp if the url
is already present, otherwise push it and, when the list exceeds the cap,
sort by descending timestamp and slice to the cap. -/
def addEvidence (cap : Nat) (l : List PageRef) (u : String) (t : Nat) : List PageRef :=
  if l.any (fun p => p.url = u) then touchFirst u t l
  else
    let pushed := l ++ [⟨u, t⟩]
    if cap < pushed.length then (sortTsDesc pushed).take cap else pushed

/-- The mutable module state touched by the embedded operations
(part_000 lines 48-73): `domainStatus`, `availableList`, `hasNew`,
`lastQueued`, the work `queue` with its `queued` membership set, the
`active` set, the `inflightByDomain` key set and `itemToHost`. -/
structure St where
  domainStatus : List (String × DomainInfo)
  availableList : List Finding
  hasNew : Bool
  lastQueued : List (String × Nat)
  queue : List String
  queued : List String
  active : List String
  inflightBy : List String
  itemToHost : List (String × String)
deriving DecidableEq, Repr

/-- The fresh pending record created when a domain has no cache entry
(part_000 lines 959-967, 995-1003, 1402-1410). -/
def freshPending (t : Nat) : DomainInfo :=
  { status := Status.pending, method := none, http := 0, url := "", ts := t
    pages := [], requests := [], softUntil := none }

/-- Source: `addPageContext` (part_000 lines 953-987). A missing or empty
page url is a no-op (`if (!pageUrl) return`). -/
def addPageContext (σ : St) (domain : String) (pageUrl : Option String) (t : Nat) : St :=
  match pageUrl with
  | none => σ
  | some u =>
      if u = "" then σ
      else
        let item := (aGet σ.domainStatus domain).getD (freshPending t)
        let item := { item with pages := addEvidence MAX_PAGES_PER_DOMAIN item.pages u t, ts := t }
        { σ with domainStatus := aSet σ.domainStatus domain item }

/-- Source: `addRequestContext` (part_000 lines 989-1022). -/
def addRequestContext (σ : St) (domain : String) (reqUrl : Option String) (t : Nat) : St :=
  match reqUrl with
  | none => σ
  | some u =>
      if u = "" then σ
      else
        let item := (aGet σ.domainStatus domain).getD (freshPending t)
        let item := { item with requests := addEvidence MAX_REQS_PER_DOMAIN item.requests u t, ts := t }
        { σ with domainStatus := aSet σ.domainStatus domain item }

/-- Source: `mergeContextsInto` (part_000 lines 1024-1054): collect the
pages and requests of every candidate record into url-keyed max-timestamp
maps, sort each by descending timestamp, cap, and write both lists into
`into`. -/
def mergeContextsInto (ds : List (String × DomainInfo)) (cands : List String)
    (into : DomainInfo) : DomainInfo :=
  let pages := cands.foldl (fun m c =>
    match aGet ds c with
    | none => m
    | some r => foldMaxTs m r.pages) []
  let reqs := cands.foldl (fun m c =>
    match aGet ds c with
    | none => m
    | some r => foldMaxTs m r.requests) []
  { into with
      pages := (sortTsDesc pages).take MAX_PAGES_PER_DOMAIN
      requests := (sortTsDesc reqs).take MAX_REQS_PER_DOMAIN }

/-- The in-place update of an existing findings entry performed by
`propagateStatus` (part_000 lines 1075-1093): merge evidence, refresh
`method` (`result.method ?? existing.method ?? null`) and the timestamp.
Only the first entry with the matching domain is touched, as
`availableList.find` returns the first match. -/
def updFinding (l : List Finding) (dom : String) (result : DomainInfo) (t : Nat) : List Finding :=
  match l with
  | [] => []
  | x :: xs =>
      if x.domain = dom then
        { x with
            pages := mergeEvidence x.pages result.pages MAX_PAGES_PER_DOMAIN
            requests := mergeEvidence x.requests result.requests MAX_REQS_PER_DOMAIN
            method := match result.method with
              | some m => some m
              | none => x.method
            ts := t } :: xs
      else x :: updFinding xs dom result t

/-- Source: `propagateStatus` (part_000 lines 1056-1120): merge the
candidate records evidence into `result`, overwrite every candidate cache
record with `\x7b ...result, ts \x7d`, and on an `unregistered` verdict update or
create the findings entry for the registrable (`cands[0]`, modelled with
`headD` since every call site passes a singleton list), setting the
`hasNew` flag only on creation. -/
def propagateStatus (σ : St) (cands : List String) (result : DomainInfo) (t : Nat) : St :=
  let result1 := mergeContextsInto σ.domainStatus cands result
  let ds1 := cands.foldl (fun m c => aSet m c { result1 with ts := t }) σ.domainStatus
  let shortest := cands.headD ""
  if result1.status = Status.unregistered then
    if (σ.availableList.find? (fun x => x.domain = shortest)).isSome then
      { σ with domainStatus := ds1
               availableList := updFinding σ.availableList shortest result1 t }
    else
      { σ with domainStatus := ds1
               availableList := σ.availableList ++
                 [{ domain := shortest, method := result1.method, ts := t
                    pages := result1.pages, requests := result1.requests }]
               hasNew := true }
  else { σ with domainStatus := ds1 }

/-- `typeof ds.softUntil === 'number' && now() > ds.softUntil`
(part_000 line 1138). -/
def softPassed : Option Nat → Nat → Bool
  | some su, t => decide (su < t)
  | none, _ => false

/-- The skip-if-resolved admission check of `ensureEnqueued`
(part_000 lines 1134-1151): a record whose status is neither `pending`
nor `error` is skipped unless it is a DNS verdict whose soft TTL has
expired. -/
def resolvedSkip (ds : DomainInfo) (t : Nat) : Bool :=
  if ds.status ≠ Status.pending ∧ ds.status ≠ Status.error then
    if ds.method = some MProto.dns ∧ softPassed ds.softUntil t = true then false else true
  else false

/-- Source: `ensureEnqueued` (part_000 lines 1122-1175). Admission checks
in source order: throttle window, skip-if-resolved, skip-if-active,
skip-if-inflight-or-queued; otherwise record the host hint, append to the
queue, add to the queued set, stamp the throttle and trigger the drain.
The returned flag is whether `processQueue` was triggered. -/
def ensureEnqueued (σ : St) (regDomain origHost : String) (t : Nat) : St × Bool :=
  let lq := (aGet σ.lastQueued regDomain).getD 0
  if lq ≠ 0 ∧ t - lq < ENQUEUE_TTL_MS then (σ, false)
  else if (match aGet σ.domainStatus regDomain with
           | some ds => resolvedSkip ds t
           | none => false) then (σ, false)
  else if σ.active.contains regDomain then (σ, false)
  else if σ.inflightBy.contains regDomain || σ.queued.contains regDomain then (σ, false)
  else
    ({ σ with
        itemToHost := aSet σ.itemToHost regDomain origHost
        queue := σ.queue ++ [regDomain]
        queued := sAdd σ.queued regDomain
        lastQueued := aSet σ.lastQueued regDomain t }, true)

/-- Source: `dnsCheckOne` (part_000 lines 876-917). `ns = none` models the
catch branch (both DoH providers failed or timed out). -/
def dnsCheckOne (t : Nat) (ns : Option DohJson) : DnsRes :=
  match ns with
  | none => { status := Status.unknown, method := some MProto.dns, softUntil := none }
  | some j =>
      let rcode : Int := j.statusNum.getD (-1)
      let hasNS : Bool := j.statusNum == some 0 && j.answerNonempty
      let hasSOA : Bool := j.authorityHasSOA
      if rcode = 3 then
        { status := Status.unregistered, method := some MProto.dns, softUntil := none }
      else if rcode = 0 ∧ (hasNS || hasSOA) = true then
        { status := Status.registered, method := some MProto.dns, softUntil := none }
      else
        { status := Status.registered, method := some MProto.dns
          softUntil := some (t + DNS_REGISTERED_SOFT_TTL_MS) }

/-- Source: `dnsFallback` (part_000 lines 919-951): short-circuit on a
cached final verdict, otherwise run the single DNS check at the
registrable. The boolean records whether a DoH query was actually issued. -/
def dnsFallback (ds : List (String × DomainInfo)) (registrable : String)
    (doh : Option DohJson) (t : Nat) : FbResult × Bool :=
  match aGet ds registrable with
  | some cs =>
      if cs.status = Status.registered ∨ cs.status = Status.unregistered then
        ({ status := cs.status, method := cs.method, http := cs.http, url := cs.url
           softUntil := none }, false)
      else
        let r := dnsCheckOne t doh
        ({ status := r.status, method := r.method, http := 0, url := ""
           softUntil := r.softUntil }, true)
  | none =>
      let r := dnsCheckOne t doh
      ({ status := r.status, method := r.method, http := 0, url := ""
         softUntil := r.softUntil }, true)

/-- Models the JavaScript `String.prototype.startsWith` test used at
part_000 line 1206 (`resp.finalUrl.startsWith('https://rdap.org/')`) as a
character-list prefix check. -/
def jsStartsWith (s pre : String) : Bool := pre.data.isPrefixOf s.data

/-- Source: `checkRegistrable` (part_000 lines 1177-1297). If a
resolution for the domain is already in flight the call awaits that
promise and performs nothing itself; otherwise the RDAP response is
dispatched on: 200 → registered; 404 redirected off the aggregator →
unregistered; 404 still on the aggregator → DNS fallback, committing only
a conclusive verdict and otherwise lifting the throttle; status 0
(transport failure) → same DNS fallback policy; any other status →
error verdict. The in-flight marker is removed in the `finally`, so the
completed call leaves `inflightBy` as it found it. The second component
lists the network requests the call issued. -/
def checkRegistrable (σ : St) (registrable : String) (resp : RdapResp)
    (doh : Option DohJson) (t : Nat) : St × List NetEvent :=
  if σ.inflightBy.contains registrable then (σ, [])
  else if resp.ok = true ∧ resp.status = 200 then
    (propagateStatus σ [registrable]
      { status := Status.registered, method := some MProto.rdap, http := 200
        url := resp.finalUrl, ts := t, pages := [], requests := [], softUntil := none } t,
     [NetEvent.rdapReq registrable])
  else if resp.ok = false ∧ resp.status = 404 then
    let redirectedOffAggregator : Bool := ! jsStartsWith resp.finalUrl "https://rdap.org/"
    if redirectedOffAggregator then
      (propagateStatus σ [registrable]
        { status := Status.unregistered, method := some MProto.rdap, http := 404
          url := resp.finalUrl, ts := t, pages := [], requests := [], softUntil := none } t,
       [NetEvent.rdapReq registrable])
    else
      let fb := dnsFallback σ.domainStatus registrable doh t
      let evs := NetEvent.rdapReq registrable ::
        (if fb.2 then [NetEvent.dohReq registrable] else [])
      if fb.1.status = Status.registered ∨ fb.1.status = Status.unregistered then
        (propagateStatus σ [registrable]
          { status := fb.1.status, method := fb.1.method, http := fb.1.http
            url := fb.1.url, ts := t, pages := [], requests := []
            softUntil := fb.1.softUntil } t, evs)
      else
        ({ σ with lastQueued := aDel σ.lastQueued registrable }, evs)
  else if resp.ok = false ∧ resp.status = 0 then
    let fb := dnsFallback σ.domainStatus registrable doh t
    let evs := NetEvent.rdapReq registrable ::
      (if fb.2 then [NetEvent.dohReq registrable] else [])
    if fb.1.status = Status.registered ∨ fb.1.status = Status.unregistered then
      (propagateStatus σ [registrable]
        { status := fb.1.status, method := fb.1.method, http := fb.1.http
          url := fb.1.url, ts := t, pages := [], requests := []
          softUntil := fb.1.softUntil } t, evs)
    else
      ({ σ with lastQueued := aDel σ.lastQueued registrable }, evs)
  else
    (propagateStatus σ [registrable]
      { status := Status.error, method := some MProto.rdap, http := resp.status
        url := resp.finalUrl, ts := t, pages := [], requests := [], softUntil := none } t,
     [NetEvent.rdapReq registrable])

/-- Whitespace recognised by `String.prototype.trim` (restricted to the
ASCII whitespace characters relevant here). -/
def isSpaceChar (c : Char) : Bool :=
  c = ' ' || c = '\t' || c = '\n' || c = '\r' || c = '\x0b' || c = '\x0c'

/-- `h.trim()` as a character-list operation. -/
def trimChars (s : List Char) : List Char :=
  ((s.dropWhile isSpaceChar).reverse.dropWhile isSpaceChar).reverse

/-- `.replace(/\.+$/, '')`: drop trailing dots. -/
def dropTrailingDots (s : List Char) : List Char :=
  (s.reverse.dropWhile (fun c => c = '.')).reverse

/-- Source: `normalizeHost` (part_000 lines 283-289):
`h.trim().toLowerCase().replace(/\.+$/, '')`, returning `null` for a
missing or empty input and for an empty normalization result. -/
def normalizeHost (h : Option String) : Option String :=
  match h with
  | none => none
  | some s =>
      if s = "" then none
      else
        let x := String.mk (dropTrailingDots ((trimChars s.data).map Char.toLower))
        if x = "" then none else some x

/-- The validity test `info && info.domain && info.isIcann && !info.isIp`
used by the `recheckDomain` handler (part_000 line 1717); the JavaScript
truthiness of `info.domain` makes an empty string invalid. -/
def validRegistrable (info : ParseInfo) : Option String :=
  match info.domain with
  | some d => if d ≠ "" ∧ info.isIcann = true ∧ info.isIp = false then some d else none
  | none => none

/-- The registrable computed by the `recheckDomain` handler from the raw
message string (part_000 lines 1715-1717), with the external `tldts.parse`
supplied as the pure function `pf`. -/
def recheckRegistrable (pf : String → ParseInfo) (s : String) : Option String :=
  match normalizeHost (some s) with
  | none => none
  | some hst => validRegistrable (pf hst)

/-- `a || b` on a possibly-absent string, as used for the host hint chain
`itemToHost.get(registrable) || host || registrable` (part_000 line 1721). -/
def jsOrS (a : Option String) (b : String) : String :=
  match a with
  | some s => if s = "" then b else s
  | none => b

/-- Source: the `recheckDomain` branch of the `onMessage` listener
(part_000 lines 1714-1728). On a valid registrable it deletes the cache
record and the throttle stamp, re-submits through `ensureEnqueued` and
responds `ok:true`; otherwise it responds `ok:false` having changed
nothing. The returned flag is the `ok` field of the response. -/
def recheckDomainHandler (σ : St) (pf : String → ParseInfo) (msgDomain : String)
    (t : Nat) : St × Bool :=
  match recheckRegistrable pf msgDomain with
  | some reg =>
      let σ1 := { σ with
        domainStatus := aDel σ.domainStatus reg
        lastQueued := aDel σ.lastQueued reg }
      let hostHint := jsOrS (aGet σ.itemToHost reg)
        (jsOrS (normalizeHost (some msgDomain)) reg)
      ((ensureEnqueued σ1 reg hostHint t).1, true)
  | none => (σ, false)

/-! ### Association-list lemmas -/

theorem aGet_aSet_self {α : Type} (m : List (String × α)) (k : String) (v : α) :
    aGet (aSet m k v) k = some v := by
  induction m with
  | nil => simp [aSet, aGet]
  | cons kv rest ih =>
      obtain ⟨k1, v1⟩ := kv
      by_cases h : k1 = k
      · simp [aSet, aGet, h]
      · simp [aSet, aGet, h, ih]

theorem aGet_aDel_self {α : Type} (m : List (String × α)) (k : String) :
    aGet (aDel m k) k = none := by
  induction m with
  | nil => simp [aDel, aGet]
  | cons kv rest ih =>
      obtain ⟨k1, v1⟩ := kv
      by_cases h : k1 = k
      · simp [aDel, aGet, h, ih]
      · simp [aDel, aGet, h, ih]

/-! ### Claim theorems: C1, C4, C10, C2 -/

/-- Claim C1: if `checkRegistrable(D)` is invoked while a resolution of D
is already in flight (D is a key of `inflightByDomain`), the later caller
awaits the existing in-flight promise: the call issues no registry or DNS
network request and changes no state. -/
theorem checkRegistrable_inflight_dedup (σ : St) (d : String) (resp : RdapResp)
    (doh : Option DohJson) (t : Nat) (h : σ.inflightBy.contains d = true) :
    checkRegistrable σ d resp doh t = (σ, []) := by
  unfold checkRegistrable
  rw [h]
  simp

theorem checkRegistrable_inflight_dedup_witness :
    (St.mk [] [] false [] [] [] [] ["a"] []).inflightBy.contains "a" = true ∧
    checkRegistrable (St.mk [] [] false [] [] [] [] ["a"] []) "a"
      ⟨false, 404, "u"⟩ none 5 = (St.mk [] [] false [] [] [] [] ["a"] [], []) :=
  ⟨by decide, checkRegistrable_inflight_dedup _ "a" ⟨false, 404, "u"⟩ none 5 (by decide)⟩

/-- Claim C4: the NS-record fallback check maps resolver outcomes as
follows: rcode 3 (NXDOMAIN) yields `unregistered`; rcode 0 with a
non-empty answer section or an SOA (type 6) record in the authority
section yields `registered`; any other rcode, including NOERROR with
neither NS nor SOA, yields `registered` with soft-expiry
`t + DNS_REGISTERED_SOFT_TTL_MS`; a transport failure of both providers
(`none`) yields `unknown`. -/
theorem dnsCheckOne_verdicts (t : Nat) (j : DohJson) :
    (j.statusNum = some 3 →
      dnsCheckOne t (some j) =
        { status := Status.unregistered, method := some MProto.dns, softUntil := none }) ∧
    (j.statusNum = some 0 → (j.answerNonempty = true ∨ j.authorityHasSOA = true) →
      dnsCheckOne t (some j) =
        { status := Status.registered, method := some MProto.dns, softUntil := none }) ∧
    (j.statusNum ≠ some 3 →
      (j.statusNum = some 0 → j.answerNonempty = false ∧ j.authorityHasSOA = false) →
      dnsCheckOne t (some j) =
        { status := Status.registered, method := some MProto.dns
          softUntil := some (t + DNS_REGISTERED_SOFT_TTL_MS) }) ∧
    dnsCheckOne t none =
      { status := Status.unknown, method := some MProto.dns, softUntil := none } := by
  refine ⟨fun h3 => ?_, fun h0 hev => ?_, fun hne himp => ?_, rfl⟩
  · simp [dnsCheckOne, h3]
  · rcases hev with hev | hev <;> simp [dnsCheckOne, h0, hev]
  · cases hs : j.statusNum with
    | none => simp [dnsCheckOne, hs]
    | some v =>
        rw [hs] at hne himp
        by_cases hv0 : v = 0
        · subst hv0
          obtain ⟨ha, hb⟩ := himp rfl
          simp [dnsCheckOne, hs, ha, hb]
        · have hv3 : v ≠ 3 := fun hc => hne (by rw [hc])
          simp [dnsCheckOne, hs, hv0, hv3]

theorem dnsCheckOne_verdicts_witness :
    ((⟨some 3, false, false⟩ : DohJson).statusNum = some 3 ∧
      dnsCheckOne 7 (some ⟨some 3, false, false⟩) =
        { status := Status.unregistered, method := some MProto.dns, softUntil := none }) ∧
    ((⟨some 0, true, false⟩ : DohJson).statusNum = some 0 ∧
      dnsCheckOne 7 (some ⟨some 0, true, false⟩) =
        { status := Status.registered, method := some MProto.dns, softUntil := none }) ∧
    ((⟨some 0, false, false⟩ : DohJson).statusNum ≠ some 3 ∧
      dnsCheckOne 7 (some ⟨some 0, false, false⟩) =
        { status := Status.registered, method := some MProto.dns
          softUntil := some (7 + DNS_REGISTERED_SOFT_TTL_MS) }) ∧
    dnsCheckOne 7 none =
      { status := Status.unknown, method := some MProto.dns, softUntil := none } :=
  ⟨⟨rfl, (dnsCheckOne_verdicts 7 ⟨some 3, false, false⟩).1 rfl⟩,
   ⟨rfl, (dnsCheckOne_verdicts 7 ⟨some 0, true, false⟩).2.1 rfl (Or.inl rfl)⟩,
   ⟨by decide, (dnsCheckOne_verdicts 7 ⟨some 0, false, false⟩).2.2.1 (by decide)
      (fun _ => ⟨rfl, rfl⟩)⟩,
   (dnsCheckOne_verdicts 7 ⟨some 0, false, false⟩).2.2.2⟩

/-- Claim C10: a `recheckDomain` message whose domain string does not
normalize and parse to a non-IP ICANN registrable domain is answered with
`ok:false` and the failure is atomic: the whole state (domainStatus,
lastQueued, queue, queued, active and the rest) is left unchanged and no
resolution is triggered. -/
theorem recheckDomain_invalid_noop (σ : St) (pf : String → ParseInfo) (s : String)
    (t : Nat) (h : recheckRegistrable pf s = none) :
    recheckDomainHandler σ pf s t = (σ, false) := by
  simp [recheckDomainHandler, h]

theorem recheckDomain_invalid_noop_witness :
    recheckRegistrable (fun _ => ⟨none, false, true⟩) "x" = none ∧
    recheckDomainHandler (St.mk [] [] false [] [] [] [] [] [])
      (fun _ => ⟨none, false, true⟩) "x" 5 =
      (St.mk [] [] false [] [] [] [] [] [], false) :=
  ⟨by decide,
   recheckDomain_invalid_noop (St.mk [] [] false [] [] [] [] [] [])
     (fun _ => ⟨none, false, true⟩) "x" 5 (by decide)⟩

/-- Claim C2: for a domain whose cached record carries a final verdict
(status neither `pending` nor `error`) and whose soft-expiry is absent or
not yet passed, `ensureEnqueued` is a no-op: the returned state is the
input state unchanged (queue, queued set, active set and the cached
record included) and the drain is not triggered, so no resolution or
network call results. -/
theorem ensureEnqueued_final_noop (σ : St) (d h : String) (t : Nat) (ds : DomainInfo)
    (hget : aGet σ.domainStatus d = some ds)
    (h1 : ds.status ≠ Status.pending) (h2 : ds.status ≠ Status.error)
    (h3 : softPassed ds.softUntil t = false) :
    ensureEnqueued σ d h t = (σ, false) := by
  have hskip : resolvedSkip ds t = true := by
    simp [resolvedSkip, h1, h2, h3]
  by_cases hthr : ((aGet σ.lastQueued d).getD 0 ≠ 0 ∧
      t - (aGet σ.lastQueued d).getD 0 < ENQUEUE_TTL_MS)
  · simp [ensureEnqueued, hthr]
  · simp [ensureEnqueued, hthr, hget, hskip]

theorem ensureEnqueued_final_noop_witness :
    aGet (St.mk [("a", ⟨Status.registered, some MProto.rdap, 200, "u", 1, [], [], none⟩)]
        [] false [] [] [] [] [] []).domainStatus "a" =
      some ⟨Status.registered, some MProto.rdap, 200, "u", 1, [], [], none⟩ ∧
    softPassed (none : Option Nat) 5 = false ∧
    ensureEnqueued (St.mk [("a", ⟨Status.registered, some MProto.rdap, 200, "u", 1, [], [], none⟩)]
        [] false [] [] [] [] [] []) "a" "h" 5 =
      (St.mk [("a", ⟨Status.registered, some MProto.rdap, 200, "u", 1, [], [], none⟩)]
        [] false [] [] [] [] [] [], false) :=
  ⟨by decide, rfl,
   ensureEnqueued_final_noop _ "a" "h" 5
     ⟨Status.registered, some MProto.rdap, 200, "u", 1, [], [], none⟩
     (by decide) (by decide) (by decide) rfl⟩

/-! ### propagateStatus branch lemmas -/

theorem mergeContextsInto_status (ds : List (String × DomainInfo)) (cands : List String)
    (into : DomainInfo) : (mergeContextsInto ds cands into).status = into.status := rfl

theorem propagateStatus_not_unreg (σ : St) (cands : List String) (result : DomainInfo)
    (t : Nat) (h : result.status ≠ Status.unregistered) :
    propagateStatus σ cands result t =
      { σ with domainStatus := cands.foldl (fun m c => aSet m c
          { mergeContextsInto σ.domainStatus cands result with ts := t }) σ.domainStatus } := by
  unfold propagateStatus
  rw [if_neg (by rw [mergeContextsInto_status]; exact h)]

theorem propagateStatus_unregistered_new (σ : St) (d : String) (result : DomainInfo)
    (t : Nat) (hst : result.status = Status.unregistered)
    (hfind : (σ.availableList.find? (fun x => x.domain = d)).isSome = false) :
    propagateStatus σ [d] result t =
      { σ with
          domainStatus := aSet σ.domainStatus d
            { mergeContextsInto σ.domainStatus [d] result with ts := t }
          availableList := σ.availableList ++
            [{ domain := d, method := result.method, ts := t
               pages := (mergeContextsInto σ.domainStatus [d] result).pages
               requests := (mergeContextsInto σ.domainStatus [d] result).requests }]
          hasNew := true } := by
  unfold propagateStatus
  rw [if_pos (by rw [mergeContextsInto_status]; exact hst)]
  simp only [List.headD_cons, List.foldl_cons, List.foldl_nil]
  rw [if_neg (by rw [hfind]; simp)]
  rfl

theorem resolvedSkip_of_error (ds : DomainInfo) (t : Nat) (h : ds.status = Status.error) :
    resolvedSkip ds t = false := by
  unfold resolvedSkip
  rw [if_neg]
  rintro ⟨-, hne⟩
  exact hne h

theorem ensureEnqueued_admit (σ : St) (d hHost : String) (t : Nat) (ds : DomainInfo)
    (hthr : ¬ ((aGet σ.lastQueued d).getD 0 ≠ 0 ∧
        t - (aGet σ.lastQueued d).getD 0 < ENQUEUE_TTL_MS))
    (hget : aGet σ.domainStatus d = some ds) (hskip : resolvedSkip ds t = false)
    (hact : σ.active.contains d = false) (hinf : σ.inflightBy.contains d = false)
    (hqd : σ.queued.contains d = false) :
    ensureEnqueued σ d hHost t =
      ({ σ with
          itemToHost := aSet σ.itemToHost d hHost
          queue := σ.queue ++ [d]
          queued := sAdd σ.queued d
          lastQueued := aSet σ.lastQueued d t }, true) := by
  unfold ensureEnqueued
  rw [if_neg hthr, hget]
  dsimp only
  rw [hskip, hact, hinf, hqd]
  simp

/-! ### Claim theorems: C3, C5, C6 -/

/-- Claim C3: an RDAP 404 whose final URL is off the aggregator host
yields the `unregistered` verdict with method rdap and httpStatus 404, no
DNS query is issued for this check (the event list is the single RDAP
request), and when no findings entry existed for the domain one is
appended and the new-finding flag is set. -/
theorem checkRegistrable_404_redirect (σ : St) (d : String) (resp : RdapResp)
    (doh : Option DohJson) (t : Nat)
    (h1 : resp.ok = false) (h2 : resp.status = 404)
    (h3 : jsStartsWith resp.finalUrl "https://rdap.org/" = false)
    (h4 : σ.inflightBy.contains d = false)
    (h5 : (σ.availableList.find? (fun x => x.domain = d)).isSome = false) :
    ((checkRegistrable σ d resp doh t).2 = [NetEvent.rdapReq d]) ∧
    (∃ r, aGet (checkRegistrable σ d resp doh t).1.domainStatus d = some r ∧
      r.status = Status.unregistered ∧ r.method = some MProto.rdap ∧ r.http = 404) ∧
    (∃ f, (checkRegistrable σ d resp doh t).1.availableList = σ.availableList ++ [f] ∧
      f.domain = d) ∧
    (checkRegistrable σ d resp doh t).1.hasNew = true := by
  have e1 : checkRegistrable σ d resp doh t =
      (propagateStatus σ [d]
        { status := Status.unregistered, method := some MProto.rdap, http := 404
          url := resp.finalUrl, ts := t, pages := [], requests := [], softUntil := none } t,
       [NetEvent.rdapReq d]) := by
    unfold checkRegistrable
    rw [h4, h1, h2, h3]
    simp
  rw [e1, propagateStatus_unregistered_new σ d _ t rfl h5]
  refine ⟨rfl, ⟨_, aGet_aSet_self _ _ _, rfl, rfl, rfl⟩, ⟨_, rfl, rfl⟩, rfl⟩

theorem checkRegistrable_404_redirect_witness :
    ((St.mk [] [] false [] [] [] [] [] []).inflightBy.contains "a" = false ∧
      ((St.mk [] [] false [] [] [] [] [] []).availableList.find?
        (fun x => x.domain = "a")).isSome = false) ∧
    ((checkRegistrable (St.mk [] [] false [] [] [] [] [] []) "a"
        ⟨false, 404, "https://rdap.example.net/domain/a"⟩ none 5).2 =
      [NetEvent.rdapReq "a"]) ∧
    (∃ r, aGet (checkRegistrable (St.mk [] [] false [] [] [] [] [] []) "a"
        ⟨false, 404, "https://rdap.example.net/domain/a"⟩ none 5).1.domainStatus "a" =
        some r ∧
      r.status = Status.unregistered ∧ r.method = some MProto.rdap ∧ r.http = 404) ∧
    (∃ f, (checkRegistrable (St.mk [] [] false [] [] [] [] [] []) "a"
        ⟨false, 404, "https://rdap.example.net/domain/a"⟩ none 5).1.availableList =
        (St.mk [] [] false [] [] [] [] [] []).availableList ++ [f] ∧ f.domain = "a") ∧
    (checkRegistrable (St.mk [] [] false [] [] [] [] [] []) "a"
        ⟨false, 404, "https://rdap.example.net/domain/a"⟩ none 5).1.hasNew = true :=
  ⟨⟨rfl, rfl⟩,
   checkRegistrable_404_redirect (St.mk [] [] false [] [] [] [] [] []) "a"
     ⟨false, 404, "https://rdap.example.net/domain/a"⟩ none 5
     rfl rfl (by decide) rfl rfl⟩

/-- Claim C5: an RDAP 404 whose final URL is still on the aggregator host
invokes the DNS fallback (a DoH request is among the issued events); and
when the fallback outcome is inconclusive (neither `registered` nor
`unregistered`) no verdict is committed: the cached records are unchanged
(so a pending domain stays pending), the only state change is the removal
of the throttle entry for the domain, which makes the next signal
eligible to re-enqueue it immediately. -/
theorem checkRegistrable_404_aggregator_softfail (σ : St) (d : String) (resp : RdapResp)
    (doh : Option DohJson) (t : Nat) (ds : DomainInfo)
    (h1 : resp.ok = false) (h2 : resp.status = 404)
    (h3 : jsStartsWith resp.finalUrl "https://rdap.org/" = true)
    (h4 : σ.inflightBy.contains d = false)
    (h5 : aGet σ.domainStatus d = some ds) (h6 : ds.status = Status.pending) :
    (NetEvent.dohReq d ∈ (checkRegistrable σ d resp doh t).2) ∧
    ((dnsCheckOne t doh).status ≠ Status.registered →
      (dnsCheckOne t doh).status ≠ Status.unregistered →
      (checkRegistrable σ d resp doh t).1 = { σ with lastQueued := aDel σ.lastQueued d } ∧
      aGet (checkRegistrable σ d resp doh t).1.lastQueued d = none) := by
  have efb : dnsFallback σ.domainStatus d doh t =
      ({ status := (dnsCheckOne t doh).status, method := (dnsCheckOne t doh).method
         http := 0, url := "", softUntil := (dnsCheckOne t doh).softUntil }, true) := by
    unfold dnsFallback
    rw [h5]
    dsimp only
    rw [if_neg (by rw [h6]; simp)]
  have e1 : checkRegistrable σ d resp doh t =
      (if (dnsCheckOne t doh).status = Status.registered ∨
          (dnsCheckOne t doh).status = Status.unregistered then
        (propagateStatus σ [d]
          { status := (dnsCheckOne t doh).status, method := (dnsCheckOne t doh).method
            http := 0, url := "", ts := t, pages := [], requests := []
            softUntil := (dnsCheckOne t doh).softUntil } t,
         [NetEvent.rdapReq d, NetEvent.dohReq d])
      else
        ({ σ with lastQueued := aDel σ.lastQueued d },
         [NetEvent.rdapReq d, NetEvent.dohReq d])) := by
    unfold checkRegistrable
    rw [h4, h1, h2, h3, efb]
    simp
  constructor
  · rw [e1]
    by_cases hc : (dnsCheckOne t doh).status = Status.registered ∨
        (dnsCheckOne t doh).status = Status.unregistered
    · rw [if_pos hc]; simp
    · rw [if_neg hc]; simp
  · intro hr hu
    rw [e1, if_neg (by rintro (hc | hc) <;> [exact hr hc; exact hu hc])]
    exact ⟨rfl, aGet_aDel_self _ _⟩

theorem checkRegistrable_404_aggregator_softfail_witness :
    (aGet (St.mk [("a", freshPending 1)] [] false [("a", 1)] [] [] [] [] []).domainStatus
        "a" = some (freshPending 1) ∧ (freshPending 1).status = Status.pending) ∧
    (NetEvent.dohReq "a" ∈
      (checkRegistrable (St.mk [("a", freshPending 1)] [] false [("a", 1)] [] [] [] [] [])
        "a" ⟨false, 404, "https://rdap.org/domain/a"⟩ none 5).2) ∧
    ((checkRegistrable (St.mk [("a", freshPending 1)] [] false [("a", 1)] [] [] [] [] [])
        "a" ⟨false, 404, "https://rdap.org/domain/a"⟩ none 5).1 =
      { St.mk [("a", freshPending 1)] [] false [("a", 1)] [] [] [] [] [] with
          lastQueued := aDel [("a", 1)] "a" } ∧
      aGet (checkRegistrable (St.mk [("a", freshPending 1)] [] false [("a", 1)] [] [] [] [] [])
        "a" ⟨false, 404, "https://rdap.org/domain/a"⟩ none 5).1.lastQueued "a" = none) :=
  ⟨⟨by decide, rfl⟩,
   (checkRegistrable_404_aggregator_softfail
      (St.mk [("a", freshPending 1)] [] false [("a", 1)] [] [] [] [] []) "a"
      ⟨false, 404, "https://rdap.org/domain/a"⟩
      none 5 (freshPending 1) rfl rfl (by decide) rfl (by decide) rfl).1,
   (checkRegistrable_404_aggregator_softfail
      (St.mk [("a", freshPending 1)] [] false [("a", 1)] [] [] [] [] []) "a"
      ⟨false, 404, "https://rdap.org/domain/a"⟩
      none 5 (freshPending 1) rfl rfl (by decide) rfl (by decide) rfl).2
     (by decide) (by decide)⟩

/-- Claim C6 counterexample: the claim states that after an unexpected
HTTP status produces the `error` verdict, no later event-driven call to
`ensureEnqueued` re-admits the domain. At this concrete input the RDAP
response has status 500, the verdict becomes `error`, and a later
`ensureEnqueued` outside the throttle window does re-admit the domain:
the queue changes from empty to `["a"]` and the drain is triggered. -/
theorem error_verdict_readmitted_cex :
    (aGet (checkRegistrable (St.mk [("a", freshPending 1)] [] false [("a", 1)] [] [] [] [] [])
        "a" ⟨false, 500, "https://rdap.org/domain/a"⟩ none 2).1.domainStatus "a").map
      DomainInfo.status = some Status.error ∧
    (ensureEnqueued (checkRegistrable (St.mk [("a", freshPending 1)] [] false
        [("a", 1)] [] [] [] [] []) "a" ⟨false, 500, "https://rdap.org/domain/a"⟩ none 2).1
      "a" "h" 20001).1.queue = ["a"] ∧
    (ensureEnqueued (checkRegistrable (St.mk [("a", freshPending 1)] [] false
        [("a", 1)] [] [] [] [] []) "a" ⟨false, 500, "https://rdap.org/domain/a"⟩ none 2).1
      "a" "h" 20001).2 = true := by
  refine ⟨by decide, by decide, by decide⟩

/-- Claim C6 as amended: when the registry lookup returns an HTTP status
other than 200, 404 and 0, the domain receives the `error` verdict with
method rdap and that httpStatus; the error status does not block
automatic retry: a later event-driven call to `ensureEnqueued` outside
the throttle window, with the domain not active, queued or in flight,
re-admits the domain to the work queue and triggers the drain. -/
theorem checkRegistrable_unexpected_status_error_readmit (σ : St) (d hHost : String)
    (resp : RdapResp) (doh : Option DohJson) (t t2 : Nat)
    (h1 : resp.ok = false) (h2 : resp.status ≠ 404) (h3 : resp.status ≠ 0)
    (h4 : σ.inflightBy.contains d = false)
    (h5 : σ.active.contains d = false) (h6 : σ.queued.contains d = false)
    (h7 : ¬ ((aGet σ.lastQueued d).getD 0 ≠ 0 ∧
        t2 - (aGet σ.lastQueued d).getD 0 < ENQUEUE_TTL_MS)) :
    (∃ r, aGet (checkRegistrable σ d resp doh t).1.domainStatus d = some r ∧
      r.status = Status.error ∧ r.method = some MProto.rdap ∧ r.http = resp.status) ∧
    (ensureEnqueued (checkRegistrable σ d resp doh t).1 d hHost t2).1.queue =
      σ.queue ++ [d] ∧
    (ensureEnqueued (checkRegistrable σ d resp doh t).1 d hHost t2).2 = true := by
  have e1 : checkRegistrable σ d resp doh t =
      (propagateStatus σ [d]
        { status := Status.error, method := some MProto.rdap, http := resp.status
          url := resp.finalUrl, ts := t, pages := [], requests := [], softUntil := none } t,
       [NetEvent.rdapReq d]) := by
    unfold checkRegistrable
    rw [h4, h1]
    simp [h2, h3]
  have e2 : (checkRegistrable σ d resp doh t).1 =
      { σ with
          domainStatus :=
            aSet σ.domainStatus d
              ({ mergeContextsInto σ.domainStatus [d]
                  { status := Status.error, method := some MProto.rdap, http := resp.status
                    url := resp.finalUrl, ts := t, pages := [], requests := []
                    softUntil := none } with ts := t }) } := by
    rw [e1, propagateStatus_not_unreg _ _ _ _ (by simp)]
    simp
  have hget1 : aGet (checkRegistrable σ d resp doh t).1.domainStatus d =
      some ({ mergeContextsInto σ.domainStatus [d]
          { status := Status.error, method := some MProto.rdap, http := resp.status
            url := resp.finalUrl, ts := t, pages := [], requests := []
            softUntil := none } with ts := t }) := by
    rw [e2]; exact aGet_aSet_self _ _ _
  refine ⟨⟨_, hget1, rfl, rfl, rfl⟩, ?_⟩
  have hlq : (checkRegistrable σ d resp doh t).1.lastQueued = σ.lastQueued := by rw [e2]
  have hac : (checkRegistrable σ d resp doh t).1.active = σ.active := by rw [e2]
  have hqd : (checkRegistrable σ d resp doh t).1.queued = σ.queued := by rw [e2]
  have hin : (checkRegistrable σ d resp doh t).1.inflightBy = σ.inflightBy := by rw [e2]
  have eq1 := ensureEnqueued_admit (checkRegistrable σ d resp doh t).1 d hHost t2 _
    (by rw [hlq]; exact h7) hget1 (resolvedSkip_of_error _ _ rfl)
    (by rw [hac]; exact h5) (by rw [hin]; exact h4) (by rw [hqd]; exact h6)
  rw [eq1]
  refine ⟨?_, rfl⟩
  show (checkRegistrable σ d resp doh t).1.queue ++ [d] = σ.queue ++ [d]
  rw [e2]

theorem checkRegistrable_unexpected_status_error_readmit_witness :
    ((St.mk [("a", freshPending 1)] [] false [("a", 1)] [] [] [] [] []).inflightBy.contains
        "a" = false ∧
      ¬ (((aGet (St.mk [("a", freshPending 1)] [] false
          [("a", 1)] [] [] [] [] []).lastQueued "a").getD 0 ≠ 0 ∧
        20001 - ((aGet (St.mk [("a", freshPending 1)] [] false
          [("a", 1)] [] [] [] [] []).lastQueued "a").getD 0) < ENQUEUE_TTL_MS))) ∧
    (∃ r, aGet (checkRegistrable (St.mk [("a", freshPending 1)] [] false
        [("a", 1)] [] [] [] [] []) "a" ⟨false, 500, "u"⟩ none 2).1.domainStatus "a" =
        some r ∧
      r.status = Status.error ∧ r.method = some MProto.rdap ∧ r.http = 500) ∧
    (ensureEnqueued (checkRegistrable (St.mk [("a", freshPending 1)] [] false
        [("a", 1)] [] [] [] [] []) "a" ⟨false, 500, "u"⟩ none 2).1 "a" "h" 20001).1.queue =
      (St.mk [("a", freshPending 1)] [] false [("a", 1)] [] [] [] [] []).queue ++ ["a"] ∧
    (ensureEnqueued (checkRegistrable (St.mk [("a", freshPending 1)] [] false
        [("a", 1)] [] [] [] [] []) "a" ⟨false, 500, "u"⟩ none 2).1 "a" "h" 20001).2 =
      true :=
  ⟨⟨rfl, by decide⟩,
   checkRegistrable_unexpected_status_error_readmit _ "a" "h" ⟨false, 500, "u"⟩ none 2 20001
     rfl (by decide) (by decide) rfl rfl rfl (by decide)⟩

/-! ### Evidence-map lemmas -/

def urlsOf (l : List PageRef) : List String := l.map PageRef.url

def keyNodup (l : List PageRef) : Prop := (urlsOf l).Nodup

instance (l : List PageRef) : Decidable (keyNodup l) :=
  inferInstanceAs (Decidable (urlsOf l).Nodup)

theorem urlsOf_nil : urlsOf [] = [] := rfl

theorem urlsOf_cons (p : PageRef) (l : List PageRef) :
    urlsOf (p :: l) = p.url :: urlsOf l := rfl

theorem urlsOf_append (a b : List PageRef) : urlsOf (a ++ b) = urlsOf a ++ urlsOf b := by
  simp [urlsOf]

theorem any_url_iff (l : List PageRef) (u : String) :
    l.any (fun p => p.url = u) = true ↔ u ∈ urlsOf l := by
  simp [urlsOf, List.any_eq_true, List.mem_map]

theorem mem_urls_of_mem {l : List PageRef} {p : PageRef} (hp : p ∈ l) :
    p.url ∈ urlsOf l := by
  simpa [urlsOf] using ⟨p, hp, rfl⟩

theorem mapSetTs_of_not_mem {l : List PageRef} {u : String} (t : Nat)
    (h : u ∉ urlsOf l) : mapSetTs l u t = l ++ [⟨u, t⟩] := by
  unfold mapSetTs
  rw [if_neg (fun hc => h ((any_url_iff l u).1 hc))]

theorem mapSetTs_of_mem {l : List PageRef} {u : String} (t : Nat)
    (h : u ∈ urlsOf l) :
    mapSetTs l u t = l.map (fun p => if p.url = u then ⟨u, t⟩ else p) := by
  unfold mapSetTs
  rw [if_pos ((any_url_iff l u).2 h)]

theorem urlsOf_mapSetTs_of_mem {l : List PageRef} {u : String} (t : Nat)
    (h : u ∈ urlsOf l) : urlsOf (mapSetTs l u t) = urlsOf l := by
  rw [mapSetTs_of_mem t h]
  unfold urlsOf
  rw [List.map_map]
  apply List.map_congr_left
  intro p _
  by_cases hc : p.url = u
  · simp [hc]
  · simp [hc]

theorem keyNodup_mapSetTs {l : List PageRef} (u : String) (t : Nat) (h : keyNodup l) :
    keyNodup (mapSetTs l u t) := by
  by_cases hm : u ∈ urlsOf l
  · unfold keyNodup
    rw [urlsOf_mapSetTs_of_mem t hm]
    exact h
  · unfold keyNodup
    rw [mapSetTs_of_not_mem t hm, urlsOf_append]
    rw [List.nodup_append]
    refine ⟨h, List.nodup_singleton u, ?_⟩
    intro s hs hc
    rw [show urlsOf [(⟨u, t⟩ : PageRef)] = [u] from rfl, List.mem_singleton] at hc
    exact hm (hc ▸ hs)

theorem find?_url_eq_none {l : List PageRef} {u : String} (h : u ∉ urlsOf l) :
    l.find? (fun p => p.url = u) = none := by
  induction l with
  | nil => rfl
  | cons p ps ih =>
      rw [urlsOf_cons, List.mem_cons] at h
      push_neg at h
      rw [List.find?_cons_of_neg _ (by simpa using Ne.symm h.1)]
      exact ih h.2

theorem mapGetD_of_not_mem {l : List PageRef} {u : String} (h : u ∉ urlsOf l) :
    mapGetD l u = 0 := by
  unfold mapGetD
  rw [find?_url_eq_none h]
  rfl

theorem find?_map_setTs_self {l : List PageRef} {u : String} (t : Nat)
    (h : u ∈ urlsOf l) :
    (l.map (fun p => if p.url = u then ⟨u, t⟩ else p)).find? (fun p => p.url = u) =
      some ⟨u, t⟩ := by
  induction l with
  | nil => simp [urlsOf] at h
  | cons p ps ih =>
      by_cases hc : p.url = u
      · simp [hc]
      · rw [urlsOf_cons, List.mem_cons] at h
        rcases h with h | h
        · exact absurd h.symm hc
        · simpa [hc] using ih h

theorem find?_map_setTs_ne {l : List PageRef} {u v : String} (t : Nat) (h : v ≠ u) :
    (l.map (fun p => if p.url = u then ⟨u, t⟩ else p)).find? (fun p => p.url = v) =
      l.find? (fun p => p.url = v) := by
  induction l with
  | nil => rfl
  | cons p ps ih =>
      by_cases hc : p.url = u
      · have h1 : ¬ (⟨u, t⟩ : PageRef).url = v := Ne.symm h
        have h2 : ¬ p.url = v := by rw [hc]; exact Ne.symm h
        simp only [List.map_cons, if_pos hc]
        rw [List.find?_cons_of_neg _ (by simpa using h1),
            List.find?_cons_of_neg _ (by simpa using h2)]
        exact ih
      · simp only [List.map_cons, if_neg hc]
        by_cases hpv : p.url = v
        · rw [List.find?_cons_of_pos _ (by simpa using hpv),
              List.find?_cons_of_pos _ (by simpa using hpv)]
        · rw [List.find?_cons_of_neg _ (by simpa using hpv),
              List.find?_cons_of_neg _ (by simpa using hpv)]
          exact ih

theorem mapGetD_mapSetTs_self (l : List PageRef) (u : String) (t : Nat) :
    mapGetD (mapSetTs l u t) u = t := by
  by_cases hm : u ∈ urlsOf l
  · rw [mapSetTs_of_mem t hm]
    unfold mapGetD
    rw [find?_map_setTs_self t hm]
    rfl
  · rw [mapSetTs_of_not_mem t hm]
    unfold mapGetD
    rw [List.find?_append, find?_url_eq_none hm]
    simp

theorem mapGetD_mapSetTs_ne (l : List PageRef) {u v : String} (t : Nat) (h : v ≠ u) :
    mapGetD (mapSetTs l u t) v = mapGetD l v := by
  by_cases hm : u ∈ urlsOf l
  · rw [mapSetTs_of_mem t hm]
    unfold mapGetD
    rw [find?_map_setTs_ne t h]
  · rw [mapSetTs_of_not_mem t hm]
    unfold mapGetD
    rw [List.find?_append]
    have h1 : List.find? (fun p => p.url = v) [(⟨u, t⟩ : PageRef)] = none := by
      simp [Ne.symm h]
    rw [h1]
    simp

theorem le_mapGetD_mapSetMaxTs_self (l : List PageRef) (u : String) (t : Nat) :
    t ≤ mapGetD (mapSetMaxTs l u t) u := by
  unfold mapSetMaxTs
  rw [mapGetD_mapSetTs_self]
  exact Nat.le_max_right _ _

theorem mapGetD_le_mapSetMaxTs (l : List PageRef) (u v : String) (t : Nat) :
    mapGetD l v ≤ mapGetD (mapSetMaxTs l u t) v := by
  unfold mapSetMaxTs
  by_cases h : v = u
  · subst h
    rw [mapGetD_mapSetTs_self]
    exact Nat.le_max_left _ _
  · rw [mapGetD_mapSetTs_ne l _ h]

theorem mapGetD_le_foldMaxTs (m : List PageRef) (r : List PageRef) (v : String) :
    mapGetD m v ≤ mapGetD (foldMaxTs m r) v := by
  induction r generalizing m with
  | nil => exact Nat.le_refl _
  | cons p ps ih =>
      exact Nat.le_trans (mapGetD_le_mapSetMaxTs m p.url v p.ts) (ih _)

theorem le_mapGetD_foldMaxTs {r : List PageRef} {p : PageRef} (m : List PageRef)
    (hp : p ∈ r) : p.ts ≤ mapGetD (foldMaxTs m r) p.url := by
  induction r generalizing m with
  | nil => cases hp
  | cons q qs ih =>
      rcases List.mem_cons.1 hp with hq | hq
      · subst hq
        exact Nat.le_trans (le_mapGetD_mapSetMaxTs_self m p.url p.ts)
          (mapGetD_le_foldMaxTs _ qs p.url)
      · exact ih _ hq

theorem keyNodup_foldMaxTs {m : List PageRef} (r : List PageRef) (h : keyNodup m) :
    keyNodup (foldMaxTs m r) := by
  induction r generalizing m with
  | nil => exact h
  | cons p ps ih => exact ih (keyNodup_mapSetTs _ _ h)

theorem keyNodup_mapOfPairs (l : List PageRef) : keyNodup (mapOfPairs l) := by
  have aux : ∀ (l m : List PageRef), keyNodup m →
      keyNodup (l.foldl (fun m p => mapSetTs m p.url p.ts) m) := by
    intro l
    induction l with
    | nil => intro m h; exact h
    | cons p ps ih => intro m h; exact ih _ (keyNodup_mapSetTs _ _ h)
  exact aux l [] (by simp [keyNodup, urlsOf])

theorem mem_urls_mapSetTs_self (l : List PageRef) (u : String) (t : Nat) :
    u ∈ urlsOf (mapSetTs l u t) := by
  by_cases hm : u ∈ urlsOf l
  · rw [urlsOf_mapSetTs_of_mem t hm]
    exact hm
  · rw [mapSetTs_of_not_mem t hm, urlsOf_append]
    simp [urlsOf]

theorem mem_urls_mapSetTs_mono {l : List PageRef} {v : String} (u : String) (t : Nat)
    (h : v ∈ urlsOf l) : v ∈ urlsOf (mapSetTs l u t) := by
  by_cases hm : u ∈ urlsOf l
  · rw [urlsOf_mapSetTs_of_mem t hm]
    exact h
  · rw [mapSetTs_of_not_mem t hm, urlsOf_append]
    exact List.mem_append_left _ h

theorem mem_urls_foldMaxTs_mono {m : List PageRef} {v : String} (r : List PageRef)
    (h : v ∈ urlsOf m) : v ∈ urlsOf (foldMaxTs m r) := by
  induction r generalizing m with
  | nil => exact h
  | cons p ps ih => exact ih (mem_urls_mapSetTs_mono _ _ h)

theorem mem_urls_foldMaxTs {r : List PageRef} {p : PageRef} (m : List PageRef)
    (hp : p ∈ r) : p.url ∈ urlsOf (foldMaxTs m r) := by
  induction r generalizing m with
  | nil => cases hp
  | cons q qs ih =>
      rcases List.mem_cons.1 hp with hq | hq
      · subst hq
        exact mem_urls_foldMaxTs_mono qs (mem_urls_mapSetTs_self m p.url _)
      · exact ih _ hq

theorem mapGetD_of_mem_keyNodup {l : List PageRef} {p : PageRef}
    (hn : keyNodup l) (hp : p ∈ l) : mapGetD l p.url = p.ts := by
  induction l with
  | nil => cases hp
  | cons q qs ih =>
      unfold keyNodup at hn
      rw [urlsOf_cons, List.nodup_cons] at hn
      rcases List.mem_cons.1 hp with hq | hq
      · subst hq
        unfold mapGetD
        simp
      · have hne : p.url ≠ q.url := by
          intro hc
          apply hn.1
          rw [← hc]
          exact mem_urls_of_mem hq
        unfold mapGetD
        rw [List.find?_cons_of_neg _ (by simpa using Ne.symm hne)]
        exact ih hn.2 hq

theorem length_mapSetTs_of_mem {l : List PageRef} {u : String} (t : Nat)
    (h : u ∈ urlsOf l) : (mapSetTs l u t).length = l.length := by
  rw [mapSetTs_of_mem t h, List.length_map]

theorem length_mapSetTs_le (l : List PageRef) (u : String) (t : Nat) :
    (mapSetTs l u t).length ≤ l.length + 1 := by
  by_cases hm : u ∈ urlsOf l
  · rw [length_mapSetTs_of_mem t hm]
    exact Nat.le_succ _
  · rw [mapSetTs_of_not_mem t hm, List.length_append]
    exact Nat.le_refl _

theorem length_foldMaxTs_le (m : List PageRef) (r : List PageRef) :
    (foldMaxTs m r).length ≤ m.length + r.length := by
  induction r generalizing m with
  | nil => exact Nat.le_refl _
  | cons p ps ih =>
      calc (foldMaxTs (mapSetMaxTs m p.url p.ts) ps).length
          ≤ (mapSetMaxTs m p.url p.ts).length + ps.length := ih _
        _ ≤ (m.length + 1) + ps.length :=
            Nat.add_le_add_right (length_mapSetTs_le m p.url _) _
        _ = m.length + (p :: ps).length := by
            simp [List.length_cons]
            omega

/-! ### Sort lemmas -/

theorem sortTsDesc_perm (l : List PageRef) : List.Perm (sortTsDesc l) l :=
  List.perm_insertionSort tsGE l

theorem sortTsDesc_sorted (l : List PageRef) : List.Sorted tsGE (sortTsDesc l) :=
  List.sorted_insertionSort tsGE l

theorem keyNodup_of_perm {a b : List PageRef} (hp : List.Perm a b) (h : keyNodup a) :
    keyNodup b :=
  (List.Perm.nodup_iff (hp.map PageRef.url)).1 h

theorem keyNodup_take (n : Nat) {l : List PageRef} (h : keyNodup l) :
    keyNodup (l.take n) := by
  unfold keyNodup urlsOf at h ⊢
  rw [List.map_take]
  exact List.Nodup.sublist (List.take_sublist _ _) h

/-! ### Claim C7 -/

theorem merged_preserves (old : List PageRef) (cap : Nat) (hlen : old.length ≤ cap)
    {p : PageRef} (hp : p ∈ old) :
    ∃ q ∈ (sortTsDesc (foldMaxTs [] old)).take cap, q.url = p.url ∧ p.ts ≤ q.ts := by
  have hnodup : keyNodup (foldMaxTs [] old) :=
    keyNodup_foldMaxTs old (by simp [keyNodup, urlsOf])
  have hmem : p.url ∈ urlsOf (foldMaxTs [] old) := mem_urls_foldMaxTs [] hp
  unfold urlsOf at hmem
  obtain ⟨q, hq, hqu⟩ := List.mem_map.1 hmem
  have hts : p.ts ≤ q.ts := by
    have h1 := le_mapGetD_foldMaxTs ([] : List PageRef) hp
    rwa [← hqu, mapGetD_of_mem_keyNodup hnodup hq] at h1
  have hlenM : (foldMaxTs [] old).length ≤ cap :=
    le_trans (by simpa using length_foldMaxTs_le [] old) hlen
  have hql : q ∈ (sortTsDesc (foldMaxTs [] old)).take cap := by
    rw [List.take_of_length_le (by rw [(sortTsDesc_perm _).length_eq]; exact hlenM)]
    exact (sortTsDesc_perm _).mem_iff.2 hq
  exact ⟨q, hql, hqu, hts⟩

theorem mergeContextsInto_single_pages (ds : List (String × DomainInfo)) (d : String)
    (into old : DomainInfo) (hget : aGet ds d = some old) :
    (mergeContextsInto ds [d] into).pages =
      (sortTsDesc (foldMaxTs [] old.pages)).take MAX_PAGES_PER_DOMAIN := by
  unfold mergeContextsInto
  simp only [List.foldl_cons, List.foldl_nil, hget]

theorem mergeContextsInto_single_requests (ds : List (String × DomainInfo)) (d : String)
    (into old : DomainInfo) (hget : aGet ds d = some old) :
    (mergeContextsInto ds [d] into).requests =
      (sortTsDesc (foldMaxTs [] old.requests)).take MAX_REQS_PER_DOMAIN := by
  unfold mergeContextsInto
  simp only [List.foldl_cons, List.foldl_nil, hget]

theorem propagateStatus_domainStatus_single (σ : St) (d : String) (result : DomainInfo)
    (t : Nat) :
    (propagateStatus σ [d] result t).domainStatus =
      aSet σ.domainStatus d
        ({ mergeContextsInto σ.domainStatus [d] result with ts := t }) := by
  unfold propagateStatus
  dsimp only
  split
  · split
    · rfl
    · rfl
  · rfl

/-- Claim C7: applying a verdict overwrites status, method, httpStatus,
evidence URL and soft-expiry from the result, but the evidence lists are
merged from the existing record before the write: every page and request
URL recorded for the domain before the verdict is still present in the
new record with a timestamp at least as large. -/
theorem propagateStatus_preserves_evidence (σ : St) (d : String) (result : DomainInfo)
    (t : Nat) (old : DomainInfo) (hget : aGet σ.domainStatus d = some old)
    (hpl : old.pages.length ≤ MAX_PAGES_PER_DOMAIN)
    (hrl : old.requests.length ≤ MAX_REQS_PER_DOMAIN) :
    ∃ r2, aGet (propagateStatus σ [d] result t).domainStatus d = some r2 ∧
      r2.status = result.status ∧ r2.method = result.method ∧ r2.http = result.http ∧
      r2.url = result.url ∧ r2.softUntil = result.softUntil ∧
      (∀ p ∈ old.pages, ∃ q ∈ r2.pages, q.url = p.url ∧ p.ts ≤ q.ts) ∧
      (∀ p ∈ old.requests, ∃ q ∈ r2.requests, q.url = p.url ∧ p.ts ≤ q.ts) := by
  refine ⟨{ mergeContextsInto σ.domainStatus [d] result with ts := t },
    ?_, rfl, rfl, rfl, rfl, rfl, ?_, ?_⟩
  · rw [propagateStatus_domainStatus_single]
    exact aGet_aSet_self _ _ _
  · intro p hp2
    have hpg := mergeContextsInto_single_pages σ.domainStatus d result old hget
    dsimp only
    rw [hpg]
    exact merged_preserves old.pages MAX_PAGES_PER_DOMAIN hpl hp2
  · intro p hp2
    have hpg := mergeContextsInto_single_requests σ.domainStatus d result old hget
    dsimp only
    rw [hpg]
    exact merged_preserves old.requests MAX_REQS_PER_DOMAIN hrl hp2

theorem propagateStatus_preserves_evidence_witness :
    (aGet (St.mk [("a", ⟨Status.pending, none, 0, "", 1, [⟨"p", 3⟩], [⟨"q", 4⟩], none⟩)]
        [] false [] [] [] [] [] []).domainStatus "a" =
      some ⟨Status.pending, none, 0, "", 1, [⟨"p", 3⟩], [⟨"q", 4⟩], none⟩ ∧
      ([(⟨"p", 3⟩ : PageRef)]).length ≤ MAX_PAGES_PER_DOMAIN ∧
      ([(⟨"q", 4⟩ : PageRef)]).length ≤ MAX_REQS_PER_DOMAIN) ∧
    (∃ r2, aGet (propagateStatus
        (St.mk [("a", ⟨Status.pending, none, 0, "", 1, [⟨"p", 3⟩], [⟨"q", 4⟩], none⟩)]
          [] false [] [] [] [] [] []) ["a"]
        ⟨Status.registered, some MProto.rdap, 200, "e", 9, [], [], none⟩ 9).domainStatus
        "a" = some r2 ∧
      r2.status = Status.registered ∧ r2.method = some MProto.rdap ∧ r2.http = 200 ∧
      r2.url = "e" ∧ r2.softUntil = none ∧
      (∀ p ∈ [(⟨"p", 3⟩ : PageRef)], ∃ q ∈ r2.pages, q.url = p.url ∧ p.ts ≤ q.ts) ∧
      (∀ p ∈ [(⟨"q", 4⟩ : PageRef)], ∃ q ∈ r2.requests, q.url = p.url ∧ p.ts ≤ q.ts)) :=
  ⟨⟨by decide, by decide, by decide⟩,
   propagateStatus_preserves_evidence
     (St.mk [("a", ⟨Status.pending, none, 0, "", 1, [⟨"p", 3⟩], [⟨"q", 4⟩], none⟩)]
       [] false [] [] [] [] [] []) "a"
     ⟨Status.registered, some MProto.rdap, 200, "e", 9, [], [], none⟩ 9
     ⟨Status.pending, none, 0, "", 1, [⟨"p", 3⟩], [⟨"q", 4⟩], none⟩
     (by decide) (by decide) (by decide)⟩

/-! ### Claim C8 -/

theorem urlsOf_touchFirst (u : String) (t : Nat) (l : List PageRef) :
    urlsOf (touchFirst u t l) = urlsOf l := by
  induction l with
  | nil => rfl
  | cons p ps ih =>
      unfold touchFirst
      by_cases hc : p.url = u
      · rw [if_pos hc]
        rfl
      · rw [if_neg hc, urlsOf_cons, urlsOf_cons, ih]

theorem length_touchFirst (u : String) (t : Nat) (l : List PageRef) :
    (touchFirst u t l).length = l.length := by
  induction l with
  | nil => rfl
  | cons p ps ih =>
      unfold touchFirst
      by_cases hc : p.url = u
      · rw [if_pos hc]
        rfl
      · rw [if_neg hc, List.length_cons, List.length_cons, ih]

theorem sorted_take_drop_ts {s : List PageRef} (hs : List.Sorted tsGE s) (n : Nat)
    {a b : PageRef} (ha : a ∈ s.take n) (hb : b ∈ s.drop n) : b.ts ≤ a.ts := by
  have hs2 : List.Pairwise tsGE (s.take n ++ s.drop n) := by
    rw [List.take_append_drop n s]
    exact hs
  exact (List.pairwise_append.1 hs2).2.2 a ha b hb

/-- Claim C8: the evidence upsert shared by `addPageContext` and
`addRequestContext` keeps each list within its cap; adding a url already
present only refreshes its timestamp (same url list, same length, no
duplicate); the list keeps distinct urls and its distinct-url count never
decreases; a below-cap insertion appends the new entry; and an insertion
at the cap sorts by descending timestamp and keeps the first `cap`
entries, so every dropped entry has a timestamp no larger than every
retained entry. -/
theorem addEvidence_cap_invariants (cap : Nat) (l : List PageRef) (u : String) (t : Nat)
    (hn : keyNodup l) (hl : l.length ≤ cap) :
    (addEvidence cap l u t).length ≤ cap ∧
    keyNodup (addEvidence cap l u t) ∧
    l.length ≤ (addEvidence cap l u t).length ∧
    (u ∈ urlsOf l → urlsOf (addEvidence cap l u t) = urlsOf l ∧
      (addEvidence cap l u t).length = l.length) ∧
    (u ∉ urlsOf l → l.length < cap → addEvidence cap l u t = l ++ [⟨u, t⟩]) ∧
    (u ∉ urlsOf l → l.length = cap →
      addEvidence cap l u t = (sortTsDesc (l ++ [⟨u, t⟩])).take cap ∧
      ∀ p ∈ (sortTsDesc (l ++ [⟨u, t⟩])).drop cap,
        ∀ q ∈ addEvidence cap l u t, p.ts ≤ q.ts) := by
  by_cases hm : u ∈ urlsOf l
  · have e : addEvidence cap l u t = touchFirst u t l := by
      unfold addEvidence
      rw [if_pos ((any_url_iff l u).2 hm)]
    rw [e]
    refine ⟨by rw [length_touchFirst]; exact hl, ?_, by rw [length_touchFirst],
      fun _ => ⟨urlsOf_touchFirst u t l, length_touchFirst u t l⟩,
      fun hc _ => absurd hm hc, fun hc _ => absurd hm hc⟩
    unfold keyNodup
    rw [urlsOf_touchFirst]
    exact hn
  · have hkp : keyNodup (l ++ [⟨u, t⟩]) := by
      rw [← mapSetTs_of_not_mem t hm]
      exact keyNodup_mapSetTs u t hn
    by_cases hlt : l.length < cap
    · have e : addEvidence cap l u t = l ++ [⟨u, t⟩] := by
        unfold addEvidence
        rw [if_neg (fun hc => hm ((any_url_iff l u).1 hc))]
        dsimp only
        rw [if_neg (by simp only [List.length_append, List.length_cons,
          List.length_nil]; omega)]
      rw [e]
      refine ⟨by simp only [List.length_append, List.length_cons, List.length_nil]; omega,
        hkp, by simp, fun hc => absurd hc hm, fun _ _ => rfl,
        fun _ hcap => absurd hcap (Nat.ne_of_lt hlt)⟩
    · have hcap : l.length = cap := Nat.le_antisymm hl (Nat.le_of_not_lt hlt)
      have e : addEvidence cap l u t = (sortTsDesc (l ++ [⟨u, t⟩])).take cap := by
        unfold addEvidence
        rw [if_neg (fun hc => hm ((any_url_iff l u).1 hc))]
        dsimp only
        rw [if_pos (by simp only [List.length_append, List.length_cons,
          List.length_nil]; omega)]
      have hlensort : (sortTsDesc (l ++ [⟨u, t⟩])).length = cap + 1 := by
        rw [(sortTsDesc_perm _).length_eq]
        simp only [List.length_append, List.length_cons, List.length_nil]
        omega
      rw [e]
      refine ⟨by rw [List.length_take, hlensort]; omega, ?_,
        by rw [List.length_take, hlensort]; omega,
        fun hc => absurd hc hm, fun _ hc => absurd hcap (Nat.ne_of_lt hc), fun _ _ =>
        ⟨rfl, fun p hp q hq => sorted_take_drop_ts (sortTsDesc_sorted _) cap hq hp⟩⟩
      exact keyNodup_take cap (keyNodup_of_perm (sortTsDesc_perm _).symm hkp)

theorem addEvidence_cap_invariants_witness :
    (keyNodup [(⟨"a", 5⟩ : PageRef)] ∧ ([(⟨"a", 5⟩ : PageRef)]).length ≤ 2) ∧
    ((addEvidence 2 [(⟨"a", 5⟩ : PageRef)] "b" 9).length ≤ 2 ∧
     keyNodup (addEvidence 2 [(⟨"a", 5⟩ : PageRef)] "b" 9) ∧
     ([(⟨"a", 5⟩ : PageRef)]).length ≤ (addEvidence 2 [(⟨"a", 5⟩ : PageRef)] "b" 9).length ∧
     ("b" ∈ urlsOf [(⟨"a", 5⟩ : PageRef)] →
       urlsOf (addEvidence 2 [(⟨"a", 5⟩ : PageRef)] "b" 9) = urlsOf [(⟨"a", 5⟩ : PageRef)] ∧
       (addEvidence 2 [(⟨"a", 5⟩ : PageRef)] "b" 9).length =
         ([(⟨"a", 5⟩ : PageRef)]).length) ∧
     ("b" ∉ urlsOf [(⟨"a", 5⟩ : PageRef)] → ([(⟨"a", 5⟩ : PageRef)]).length < 2 →
       addEvidence 2 [(⟨"a", 5⟩ : PageRef)] "b" 9 = [(⟨"a", 5⟩ : PageRef)] ++ [⟨"b", 9⟩]) ∧
     ("b" ∉ urlsOf [(⟨"a", 5⟩ : PageRef)] → ([(⟨"a", 5⟩ : PageRef)]).length = 2 →
       addEvidence 2 [(⟨"a", 5⟩ : PageRef)] "b" 9 =
         (sortTsDesc ([(⟨"a", 5⟩ : PageRef)] ++ [⟨"b", 9⟩])).take 2 ∧
       ∀ p ∈ (sortTsDesc ([(⟨"a", 5⟩ : PageRef)] ++ [⟨"b", 9⟩])).drop 2,
         ∀ q ∈ addEvidence 2 [(⟨"a", 5⟩ : PageRef)] "b" 9, p.ts ≤ q.ts)) :=
  ⟨⟨by decide, by decide⟩,
   addEvidence_cap_invariants 2 [(⟨"a", 5⟩ : PageRef)] "b" 9 (by decide) (by decide)⟩

/-! ### Claim C9: idempotence of the findings evidence merge -/

theorem natMax_eq_left {a b : Nat} (h : b ≤ a) : Nat.max a b = a := Nat.max_eq_left h

theorem natMax_le {a b c : Nat} (h1 : a ≤ c) (h2 : b ≤ c) : Nat.max a b ≤ c :=
  Nat.max_le.2 ⟨h1, h2⟩

theorem map_setTs_id {l : List PageRef} {u : String} {x : PageRef}
    (h : ∀ p ∈ l, ¬ p.url = u) :
    l.map (fun p => if p.url = u then x else p) = l := by
  induction l with
  | nil => rfl
  | cons p ps ih =>
      rw [List.map_cons, if_neg (h p (List.mem_cons_self p ps)),
        ih (fun q hq => h q (List.mem_cons_of_mem _ hq))]

theorem map_setTs_getD_eq {l : List PageRef} {u : String} (hN : keyNodup l) :
    l.map (fun p => if p.url = u then ⟨u, mapGetD l u⟩ else p) = l := by
  induction l with
  | nil => rfl
  | cons q qs ih =>
      unfold keyNodup at hN
      rw [urlsOf_cons, List.nodup_cons] at hN
      by_cases hc : q.url = u
      · have hg : mapGetD (q :: qs) u = q.ts := by
          unfold mapGetD
          rw [List.find?_cons_of_pos _ (by simpa using hc)]
          rfl
        have hqs : ∀ p ∈ qs, ¬ p.url = u := by
          intro p hp hpc
          apply hN.1
          rw [hc, ← hpc]
          exact mem_urls_of_mem hp
        rw [List.map_cons, if_pos hc, hg, map_setTs_id hqs]
        congr 1
        cases q with
        | mk qu qts =>
            simp only at hc
            rw [hc]
      · have hg : mapGetD (q :: qs) u = mapGetD qs u := by
          unfold mapGetD
          rw [List.find?_cons_of_neg _ (by simpa using hc)]
        rw [List.map_cons, if_neg hc, hg, ih hN.2]

theorem mapSetTs_getD_self_eq {l : List PageRef} {u : String}
    (hN : keyNodup l) (hm : u ∈ urlsOf l) :
    mapSetTs l u (mapGetD l u) = l := by
  rw [mapSetTs_of_mem _ hm]
  exact map_setTs_getD_eq hN

theorem foldl_setTs_append (l : List PageRef) :
    ∀ acc : List PageRef, (urlsOf acc ++ urlsOf l).Nodup →
      l.foldl (fun m p => mapSetTs m p.url p.ts) acc = acc ++ l := by
  induction l with
  | nil =>
      intro acc _
      simp
  | cons p ps ih =>
      intro acc h
      have hpacc : p.url ∉ urlsOf acc := by
        intro hc
        exact (List.nodup_append.1 h).2.2 hc (by
          rw [urlsOf_cons]
          exact List.mem_cons_self _ _)
      rw [List.foldl_cons, mapSetTs_of_not_mem _ hpacc,
        show (⟨p.url, p.ts⟩ : PageRef) = p from rfl]
      rw [ih (acc ++ [p]) (by
        rw [urlsOf_append]
        rw [urlsOf_cons] at h
        simpa [List.append_assoc] using h)]
      simp

theorem mapOfPairs_eq_self {l : List PageRef} (hN : keyNodup l) : mapOfPairs l = l := by
  unfold mapOfPairs
  have := foldl_setTs_append l [] (by simpa [urlsOf] using hN)
  simpa using this

theorem mapGetD_append_left {A : List PageRef} (B : List PageRef) {u : String}
    (h : u ∈ urlsOf A) : mapGetD (A ++ B) u = mapGetD A u := by
  unfold mapGetD
  rw [List.find?_append]
  obtain ⟨q, hq, hqu⟩ := List.mem_map.1 h
  have hsome : (A.find? (fun p => p.url = u)).isSome := by
    rw [List.find?_isSome]
    exact ⟨q, hq, by simpa using hqu⟩
  obtain ⟨a, ha⟩ := Option.isSome_iff_exists.1 hsome
  rw [ha]
  rfl

theorem mapGetD_append_right {A : List PageRef} (B : List PageRef) {u : String}
    (h : u ∉ urlsOf A) : mapGetD (A ++ B) u = mapGetD B u := by
  unfold mapGetD
  rw [List.find?_append, find?_url_eq_none h]
  rfl

theorem mapSetTs_append_right {A : List PageRef} (B : List PageRef) {u : String} (t : Nat)
    (h : u ∉ urlsOf A) : mapSetTs (A ++ B) u t = A ++ mapSetTs B u t := by
  have hAid : ∀ x : PageRef, A.map (fun p => if p.url = u then x else p) = A :=
    fun x => map_setTs_id (fun p hp hc => h (by rw [← hc]; exact mem_urls_of_mem hp))
  by_cases hm : u ∈ urlsOf B
  · have hmAB : u ∈ urlsOf (A ++ B) := by
      rw [urlsOf_append]
      exact List.mem_append_right _ hm
    rw [mapSetTs_of_mem t hmAB, mapSetTs_of_mem t hm, List.map_append, hAid]
  · have hmAB : u ∉ urlsOf (A ++ B) := by
      rw [urlsOf_append]
      intro hc
      rcases List.mem_append.1 hc with hc | hc
      · exact h hc
      · exact hm hc
    rw [mapSetTs_of_not_mem t hmAB, mapSetTs_of_not_mem t hm, List.append_assoc]

theorem mem_mapSetTs {l : List PageRef} {u : String} {t : Nat} {q : PageRef}
    (h : q ∈ mapSetTs l u t) : q ∈ l ∨ q = ⟨u, t⟩ := by
  unfold mapSetTs at h
  by_cases hc : l.any (fun p => p.url = u) = true
  · rw [if_pos hc] at h
    obtain ⟨p, hp, hpe⟩ := List.mem_map.1 h
    by_cases hpu : p.url = u
    · right
      rw [← hpe, if_pos hpu]
    · left
      rw [← hpe, if_neg hpu]
      exact hp
  · rw [if_neg hc] at h
    rcases List.mem_append.1 h with h | h
    · exact Or.inl h
    · exact Or.inr (by simpa using h)

theorem mapGetD_eq_of_perm {A B : List PageRef} (hp : List.Perm A B) (hN : keyNodup B)
    {u : String} (hu : u ∈ urlsOf B) : mapGetD A u = mapGetD B u := by
  obtain ⟨q, hq, hqu⟩ := List.mem_map.1 hu
  have hNA : keyNodup A := keyNodup_of_perm hp.symm hN
  have hqA : q ∈ A := hp.mem_iff.2 hq
  rw [← hqu, mapGetD_of_mem_keyNodup hNA hqA, mapGetD_of_mem_keyNodup hN hq]

theorem foldMaxTs_id_of_covered {L : List PageRef} (hN : keyNodup L) :
    ∀ {R : List PageRef}, (∀ p ∈ R, p.url ∈ urlsOf L) →
      (∀ p ∈ R, p.ts ≤ mapGetD L p.url) → foldMaxTs L R = L := by
  intro R
  induction R with
  | nil => intro _ _; rfl
  | cons p ps ih =>
      intro hcov hle
      have h1 : mapSetMaxTs L p.url p.ts = L := by
        unfold mapSetMaxTs
        have hmx : Nat.max (mapGetD L p.url) p.ts = mapGetD L p.url :=
          natMax_eq_left (hle p (List.mem_cons_self _ _))
        rw [hmx]
        exact mapSetTs_getD_self_eq hN (hcov p (List.mem_cons_self _ _))
      show foldMaxTs (mapSetMaxTs L p.url p.ts) ps = L
      rw [h1]
      exact ih (fun q hq => hcov q (List.mem_cons_of_mem _ hq))
        (fun q hq => hle q (List.mem_cons_of_mem _ hq))

theorem foldMaxTs_split (L : List PageRef) (g : String → Nat)
    (hLg : ∀ q ∈ L, g q.url = q.ts) :
    ∀ (R e : List PageRef),
      keyNodup (L ++ e) →
      (∀ p ∈ e, p.url ∉ urlsOf L ∧ ∀ q ∈ L, p.ts ≤ q.ts) →
      (∀ p ∈ R, p.ts ≤ g p.url) →
      (∀ p ∈ R, p.url ∉ urlsOf L → ∀ q ∈ L, g p.url ≤ q.ts) →
      ∃ e2, foldMaxTs (L ++ e) R = L ++ e2 ∧
        (∀ p ∈ e2, p.url ∉ urlsOf L ∧ ∀ q ∈ L, p.ts ≤ q.ts) := by
  intro R
  induction R with
  | nil =>
      intro e _ hinv _ _
      exact ⟨e, rfl, hinv⟩
  | cons p ps ih =>
      intro e hN hinv hR hR2
      have hNL : keyNodup L := by
        unfold keyNodup at hN ⊢
        rw [urlsOf_append] at hN
        exact (List.nodup_append.1 hN).1
      have hNe : keyNodup e := by
        unfold keyNodup at hN ⊢
        rw [urlsOf_append] at hN
        exact (List.nodup_append.1 hN).2.1
      show ∃ e2, foldMaxTs (mapSetMaxTs (L ++ e) p.url p.ts) ps = L ++ e2 ∧
        (∀ w ∈ e2, w.url ∉ urlsOf L ∧ ∀ q ∈ L, w.ts ≤ q.ts)
      by_cases hpL : p.url ∈ urlsOf L
      · have hstep : mapSetMaxTs (L ++ e) p.url p.ts = L ++ e := by
          unfold mapSetMaxTs
          have hg1 : mapGetD (L ++ e) p.url = mapGetD L p.url := mapGetD_append_left e hpL
          have hg2 : mapGetD L p.url = g p.url := by
            obtain ⟨q, hq, hqu⟩ := List.mem_map.1 hpL
            rw [← hqu, mapGetD_of_mem_keyNodup hNL hq, hLg q hq]
          have hmx : Nat.max (mapGetD (L ++ e) p.url) p.ts = mapGetD (L ++ e) p.url := by
            apply natMax_eq_left
            rw [hg1, hg2]
            exact hR p (List.mem_cons_self _ _)
          rw [hmx]
          exact mapSetTs_getD_self_eq hN (by
            rw [urlsOf_append]
            exact List.mem_append_left _ hpL)
        rw [hstep]
        exact ih e hN hinv (fun q hq => hR q (List.mem_cons_of_mem _ hq))
          (fun q hq => hR2 q (List.mem_cons_of_mem _ hq))
      · have hstep : mapSetMaxTs (L ++ e) p.url p.ts =
            L ++ mapSetTs e p.url (Nat.max (mapGetD (L ++ e) p.url) p.ts) := by
          unfold mapSetMaxTs
          exact mapSetTs_append_right e _ hpL
        have hvbound : ∀ q ∈ L, Nat.max (mapGetD (L ++ e) p.url) p.ts ≤ q.ts := by
          intro q hq
          have h1 : mapGetD (L ++ e) p.url ≤ q.ts := by
            rw [mapGetD_append_right e hpL]
            by_cases hpe : p.url ∈ urlsOf e
            · obtain ⟨w, hw, hwu⟩ := List.mem_map.1 hpe
              rw [← hwu, mapGetD_of_mem_keyNodup hNe hw]
              exact (hinv w hw).2 q hq
            · rw [mapGetD_of_not_mem hpe]
              exact Nat.zero_le _
          have h2 : p.ts ≤ q.ts := Nat.le_trans (hR p (List.mem_cons_self _ _))
            (hR2 p (List.mem_cons_self _ _) hpL q hq)
          exact natMax_le h1 h2
        have hNnew : keyNodup
            (L ++ mapSetTs e p.url (Nat.max (mapGetD (L ++ e) p.url) p.ts)) := by
          rw [← hstep]
          unfold mapSetMaxTs
          exact keyNodup_mapSetTs _ _ hN
        have hinvnew : ∀ w ∈ mapSetTs e p.url (Nat.max (mapGetD (L ++ e) p.url) p.ts),
            w.url ∉ urlsOf L ∧ ∀ q ∈ L, w.ts ≤ q.ts := by
          intro w hw
          rcases mem_mapSetTs hw with hw1 | hw2
          · exact hinv w hw1
          · rw [hw2]
            exact ⟨hpL, hvbound⟩
        rw [hstep]
        exact ih _ hNnew hinvnew (fun q hq => hR q (List.mem_cons_of_mem _ hq))
          (fun q hq => hR2 q (List.mem_cons_of_mem _ hq))

theorem orderedInsert_front {a : PageRef} {l : List PageRef}
    (h : ∀ y ∈ l, y.ts ≤ a.ts) : List.orderedInsert tsGE a l = a :: l := by
  cases l with
  | nil => rfl
  | cons y ys => exact List.orderedInsert_of_le tsGE ys (h y (List.mem_cons_self _ _))

theorem sortTsDesc_append_front {e : List PageRef} : ∀ {L : List PageRef},
    List.Sorted tsGE L → (∀ a ∈ L, ∀ b ∈ e, b.ts ≤ a.ts) →
    sortTsDesc (L ++ e) = L ++ sortTsDesc e := by
  intro L
  induction L with
  | nil =>
      intro _ _
      rfl
  | cons a L ih =>
      intro hs hcross
      have hs2 : List.Sorted tsGE L := hs.of_cons
      have hcross2 : ∀ x ∈ L, ∀ b ∈ e, b.ts ≤ x.ts :=
        fun x hx => hcross x (List.mem_cons_of_mem _ hx)
      show List.orderedInsert tsGE a (List.insertionSort tsGE (L ++ e)) =
        a :: (L ++ sortTsDesc e)
      rw [show List.insertionSort tsGE (L ++ e) = sortTsDesc (L ++ e) from rfl,
        ih hs2 hcross2]
      apply orderedInsert_front
      intro y hy
      rcases List.mem_append.1 hy with hy | hy
      · exact List.rel_of_sorted_cons hs y hy
      · exact hcross a (List.mem_cons_self _ _) y ((sortTsDesc_perm e).mem_iff.1 hy)

theorem sortTsDesc_of_sorted {l : List PageRef} (h : List.Sorted tsGE l) :
    sortTsDesc l = l := by
  have h2 := sortTsDesc_append_front (e := []) h
    (fun a _ b hb => absurd hb (List.not_mem_nil b))
  rw [List.append_nil, show sortTsDesc ([] : List PageRef) = [] from rfl,
    List.append_nil] at h2
  exact h2

theorem mergeEvidence_idem (E R : List PageRef) (cap : Nat) :
    mergeEvidence (mergeEvidence E R cap) R cap = mergeEvidence E R cap := by
  unfold mergeEvidence
  set M1 := foldMaxTs (mapOfPairs E) R with hM1
  set S := sortTsDesc M1 with hS
  set L := S.take cap with hLdef
  have hNM : keyNodup M1 := by
    rw [hM1]
    exact keyNodup_foldMaxTs _ (keyNodup_mapOfPairs E)
  have hperm : List.Perm S M1 := by
    rw [hS]
    exact sortTsDesc_perm M1
  have hNS : keyNodup S := keyNodup_of_perm hperm.symm hNM
  have hNL : keyNodup L := by
    rw [hLdef]
    exact keyNodup_take _ hNS
  have hsortS : List.Sorted tsGE S := by
    rw [hS]
    exact sortTsDesc_sorted M1
  have hsortL : List.Sorted tsGE L := by
    rw [hLdef]
    exact List.Pairwise.sublist (List.take_sublist _ _) hsortS
  have hLM : ∀ q ∈ L, q ∈ M1 := by
    intro q hq
    rw [hLdef] at hq
    exact hperm.mem_iff.1 (List.mem_of_mem_take hq)
  have hLg : ∀ q ∈ L, mapGetD M1 q.url = q.ts := fun q hq =>
    mapGetD_of_mem_keyNodup hNM (hLM q hq)
  have hRg : ∀ p ∈ R, p.ts ≤ mapGetD M1 p.url := by
    intro p hp
    rw [hM1]
    exact le_mapGetD_foldMaxTs _ hp
  rw [mapOfPairs_eq_self hNL]
  by_cases hlen : M1.length ≤ cap
  · have hLS : L = S := by
      rw [hLdef]
      exact List.take_of_length_le (by rw [hperm.length_eq]; exact hlen)
    have hcov : ∀ p ∈ R, p.url ∈ urlsOf L := by
      intro p hp
      have h0 : p.url ∈ urlsOf M1 := by
        rw [hM1]
        exact mem_urls_foldMaxTs _ hp
      rw [hLS]
      exact (hperm.map PageRef.url).mem_iff.2 h0
    have hle : ∀ p ∈ R, p.ts ≤ mapGetD L p.url := by
      intro p hp
      have h0 : p.url ∈ urlsOf M1 := by
        rw [hM1]
        exact mem_urls_foldMaxTs _ hp
      have h1 : mapGetD L p.url = mapGetD M1 p.url := by
        rw [hLS]
        exact mapGetD_eq_of_perm hperm hNM h0
      rw [h1]
      exact hRg p hp
    rw [foldMaxTs_id_of_covered hNL hcov hle, sortTsDesc_of_sorted hsortL]
    apply List.take_of_length_le
    rw [hLdef, List.length_take]
    exact Nat.min_le_left _ _
  · push_neg at hlen
    have hlenL : L.length = cap := by
      rw [hLdef, List.length_take]
      have : S.length = M1.length := hperm.length_eq
      omega
    have hR2 : ∀ p ∈ R, p.url ∉ urlsOf L → ∀ q ∈ L, mapGetD M1 p.url ≤ q.ts := by
      intro p hp hnot q hq
      have hmemM : p.url ∈ urlsOf M1 := by
        rw [hM1]
        exact mem_urls_foldMaxTs _ hp
      obtain ⟨w, hw, hwu⟩ := List.mem_map.1 hmemM
      have hval : mapGetD M1 p.url = w.ts := by
        rw [← hwu]
        exact mapGetD_of_mem_keyNodup hNM hw
      have hwS : w ∈ S := hperm.mem_iff.2 hw
      have hsplit : w ∈ S.take cap ∨ w ∈ S.drop cap := by
        rw [← List.mem_append, List.take_append_drop]
        exact hwS
      rcases hsplit with hwt | hwd
      · exfalso
        apply hnot
        rw [hLdef, ← hwu]
        exact mem_urls_of_mem hwt
      · rw [hval]
        have hq2 : q ∈ S.take cap := by
          rw [← hLdef]
          exact hq
        exact sorted_take_drop_ts hsortS cap hq2 hwd
    obtain ⟨e2, heq, hinv2⟩ := foldMaxTs_split L (mapGetD M1) hLg R []
      (by rw [List.append_nil]; exact hNL)
      (by intro p hp; cases hp)
      hRg hR2
    rw [List.append_nil] at heq
    rw [heq, sortTsDesc_append_front hsortL (fun a ha b hb => (hinv2 b hb).2 a ha)]
    exact List.take_left' hlenL

theorem updFinding_cons (x : Finding) (xs : List Finding) (dom : String)
    (result : DomainInfo) (t : Nat) :
    updFinding (x :: xs) dom result t =
      if x.domain = dom then
        { x with
            pages := mergeEvidence x.pages result.pages MAX_PAGES_PER_DOMAIN
            requests := mergeEvidence x.requests result.requests MAX_REQS_PER_DOMAIN
            method := match result.method with
              | some m => some m
              | none => x.method
            ts := t } :: xs
      else x :: updFinding xs dom result t := rfl

/-- Claim C9: merging the same pages/requests evidence into a findings
entry twice (union, dedup by url, keep the max timestamp per url, sort by
descending timestamp, re-cap, refresh method and timestamp) produces
exactly the same entry as merging it once. -/
theorem updFinding_idem (l : List Finding) (dom : String) (result : DomainInfo) (t : Nat) :
    updFinding (updFinding l dom result t) dom result t = updFinding l dom result t := by
  induction l with
  | nil => rfl
  | cons x xs ih =>
      by_cases hc : x.domain = dom
      · rw [updFinding_cons, if_pos hc, updFinding_cons, if_pos hc]
        congr 1
        cases hm : result.method with
        | some m => simp [hm, mergeEvidence_idem]
        | none => simp [hm, mergeEvidence_idem]
      · rw [updFinding_cons, if_neg hc, updFinding_cons, if_neg hc, ih]

end NXD
